import Mathlib

/-!
Verification development for the optillm strategy-combinator gateway
(`optillm.py`).  The Python source is shallowly embedded: Python strings
are Lean `String`s (manipulated through their underlying `List Char`),
Python list/dict operations become Lean list operations, exceptions become
`Except String`, and the opaque strategy callables become Lean functions.
-/

/-! ## Python string primitives

Embeddings of the exact Python string operations the gateway uses:
`str.split(sep)` / `sep.join(xs)` (single-character separators, which is
the only way the source calls them), the `in` containment operator,
`str.startswith`, and `str.strip()`.
-/

/-- `startsWithChars pre l` : does `l` begin with `pre`?
(Python `str.startswith`.) -/
def startsWithChars : List Char → List Char → Bool
  | [], _ => true
  | _ :: _, [] => false
  | a :: as, b :: bs => a == b && startsWithChars as bs

/-- `containsSubChars needle hay` : does `needle` occur contiguously in
`hay`?  (Python substring operator `needle in hay`.) -/
def containsSubChars (needle : List Char) : List Char → Bool
  | [] => startsWithChars needle []
  | c :: rest => startsWithChars needle (c :: rest) || containsSubChars needle rest

/-- Python `c in s` for a single character `c`. -/
def containsChar (s : String) (c : Char) : Bool :=
  s.data.contains c

/-- Character-level `str.split(sep)` for a one-character separator.
Splits at every occurrence; adjacent separators yield empty segments,
exactly as in Python. -/
def splitC (sep : Char) : List Char → List (List Char)
  | [] => [[]]
  | c :: rest =>
    if c == sep then [] :: splitC sep rest
    else
      match splitC sep rest with
      | [] => [[c]]
      | h :: t => (c :: h) :: t

/-- Character-level `sep.join(xs)` for a one-character separator. -/
def joinC (sep : Char) : List (List Char) → List Char
  | [] => []
  | [x] => x
  | x :: rest => x ++ sep :: joinC sep rest

/-- Python `s.split(sep)` for a one-character separator string. -/
def pySplit (sep : Char) (s : String) : List String :=
  (splitC sep s.data).map String.mk

/-- Python `sep.join(xs)` for a one-character separator string. -/
def pyJoin (sep : Char) (xs : List String) : String :=
  String.mk (joinC sep (xs.map String.data))

/-- The whitespace characters removed by Python `str.strip()`
(ASCII range; the gateway only strips model/transcript text). -/
def isPySpace (c : Char) : Bool :=
  c == ' ' || c == '\t' || c == '\n' || c == '\r' || c == '\x0b' || c == '\x0c'

/-- Character-level `str.strip()`. -/
def pyStripC (l : List Char) : List Char :=
  ((l.dropWhile isPySpace).reverse.dropWhile isPySpace).reverse

/-- Python `s.strip()`. -/
def pyStrip (s : String) : String :=
  String.mk (pyStripC s.data)

/-! ## Model identifier parser (`parse_combined_approach`, optillm.py 263-295)

The Python function scans the `-`-separated tokens of the model string
with a `parsing_approaches` flag, accumulating `approaches`,
`operation` and `model_parts`.  `known_approaches` is the built-in slug
list (optillm.py 116-117); `plugin_approaches` is the registered
extension table, of which only key membership matters here, so it is
embedded as the list of its keys.
-/

/-- The list of known built-in approach slugs (optillm.py 116-117). -/
def known_approaches : List String :=
  ["none", "mcts", "bon", "moa", "rto", "z3", "self_consistency",
   "pvg", "rstar", "cot_reflection", "plansearch", "leap", "re2", "cepo"]

/-- The loop state of `parse_combined_approach`: the accumulated strategy
slugs, the current operation, the accumulated model-name tokens, and the
`parsing_approaches` flag. -/
structure ParseState where
  approaches : List String
  operation : String
  model_parts : List String
  parsing : Bool
deriving DecidableEq

/-- One iteration of the token loop of `parse_combined_approach`
(optillm.py 273-287). -/
def parseStep (known plugins : List String) (st : ParseState) (part : String) : ParseState :=
  if st.parsing then
    if known.contains part || plugins.contains part then
      { st with approaches := st.approaches ++ [part] }
    else if containsChar part '&' then
      { st with operation := "AND", approaches := st.approaches ++ pySplit '&' part }
    else if containsChar part '|' then
      { st with operation := "OR", approaches := st.approaches ++ pySplit '|' part }
    else
      { st with parsing := false, model_parts := st.model_parts ++ [part] }
  else
    { st with model_parts := st.model_parts ++ [part] }

/-- `parse_combined_approach` (optillm.py 263-295): parses a composite
model string into `(operation, approaches, actual_model)`. -/
def parse_combined_approach (model : String) (known plugins : List String) :
    String × List String × String :=
  if model == "auto" then ("SINGLE", ["none"], model)
  else
    let st := (pySplit '-' model).foldl (parseStep known plugins)
      ⟨[], "SINGLE", [], true⟩
    if st.approaches.isEmpty then ("SINGLE", ["none"], pyJoin '-' st.model_parts)
    else (st.operation, st.approaches, pyJoin '-' st.model_parts)

/-! ### Specification-side parser

A second definition of the parser, written from the words of the spec
(§4.2): take the longest prefix of tokens that are strategy tokens,
append each token's contributed slugs, let the last operator-setting
token decide the operator, and rejoin the remaining tokens as the base
model name; if no strategy tokens were found, default to
`(SINGLE, ["none"], modelString)`.  The refinement theorem for C1
compares it with `parse_combined_approach` above.
-/

/-- Spec §4.2: is a token a strategy token (a known or registered slug,
or an `&`/`|` compound)? -/
def isStrategyToken (known plugins : List String) (t : String) : Bool :=
  known.contains t || plugins.contains t || containsChar t '&' || containsChar t '|'

/-- Spec §4.2: the slugs contributed by one strategy token. -/
def tokenStrategies (known plugins : List String) (t : String) : List String :=
  if known.contains t || plugins.contains t then [t]
  else if containsChar t '&' then pySplit '&' t
  else pySplit '|' t

/-- Spec §4.2: how one strategy token updates the operator (the last
operator-setting token wins). -/
def tokenOperation (known plugins : List String) (op t : String) : String :=
  if known.contains t || plugins.contains t then op
  else if containsChar t '&' then "AND"
  else "OR"

/-- The parser as the spec words it (§4.2). -/
def parse_spec_model (model : String) (known plugins : List String) :
    String × List String × String :=
  if model == "auto" then ("SINGLE", ["none"], "auto")
  else
    let tokens := pySplit '-' model
    let pre := tokens.takeWhile (isStrategyToken known plugins)
    let rest := tokens.dropWhile (isStrategyToken known plugins)
    if pre.isEmpty then ("SINGLE", ["none"], model)
    else
      (pre.foldl (tokenOperation known plugins) "SINGLE",
       pre.flatMap (tokenStrategies known plugins),
       pyJoin '-' rest)

/-! ## Parser lemmas -/

theorem splitC_ne_nil (sep : Char) (l : List Char) : splitC sep l ≠ [] := by
  cases l with
  | nil => simp [splitC]
  | cons c rest =>
    simp only [splitC]
    split
    · simp
    · split <;> simp

theorem joinC_splitC (sep : Char) (l : List Char) : joinC sep (splitC sep l) = l := by
  induction l with
  | nil => rfl
  | cons c rest ih =>
    simp only [splitC]
    by_cases h : c = sep
    · simp only [h, beq_self_eq_true, if_true]
      cases hs : splitC sep rest with
      | nil => exact absurd hs (splitC_ne_nil sep rest)
      | cons x t =>
        rw [hs] at ih
        cases t <;> simp_all [joinC]
    · simp only [beq_iff_eq, h, if_false]
      cases hs : splitC sep rest with
      | nil => exact absurd hs (splitC_ne_nil sep rest)
      | cons x t =>
        rw [hs] at ih
        cases t <;> simp_all [joinC]

theorem pySplit_ne_nil (sep : Char) (s : String) : pySplit sep s ≠ [] := by
  simp only [pySplit, ne_eq, List.map_eq_nil_iff]
  exact splitC_ne_nil sep s.data

theorem pyJoin_pySplit (sep : Char) (s : String) : pyJoin sep (pySplit sep s) = s := by
  simp only [pyJoin, pySplit, List.map_map]
  have hcomp : (String.data ∘ String.mk) = id := by
    funext l; rfl
  rw [hcomp, List.map_id, joinC_splitC]

theorem tokenStrategies_ne_nil (known plugins : List String) (t : String) :
    tokenStrategies known plugins t ≠ [] := by
  simp only [tokenStrategies]
  split
  · simp
  · split <;> exact pySplit_ne_nil _ _

theorem parseStep_not_parsing (known plugins A : List String) (op : String)
    (M : List String) (t : String) :
    parseStep known plugins ⟨A, op, M, false⟩ t = ⟨A, op, M ++ [t], false⟩ := by
  simp [parseStep]

theorem parseStep_slug (known plugins A : List String) (op : String)
    (M : List String) (t : String)
    (h : (known.contains t || plugins.contains t) = true) :
    parseStep known plugins ⟨A, op, M, true⟩ t = ⟨A ++ [t], op, M, true⟩ := by
  have h' : t ∈ known ∨ t ∈ plugins := by simpa using h
  simp [parseStep, h']

theorem parseStep_amp (known plugins A : List String) (op : String)
    (M : List String) (t : String)
    (h1 : (known.contains t || plugins.contains t) = false)
    (h2 : containsChar t '&' = true) :
    parseStep known plugins ⟨A, op, M, true⟩ t =
      ⟨A ++ pySplit '&' t, "AND", M, true⟩ := by
  have h1' : ¬(t ∈ known ∨ t ∈ plugins) := by simpa using h1
  simp [parseStep, h1', h2]

theorem parseStep_pipe (known plugins A : List String) (op : String)
    (M : List String) (t : String)
    (h1 : (known.contains t || plugins.contains t) = false)
    (h2 : containsChar t '&' = false)
    (h3 : containsChar t '|' = true) :
    parseStep known plugins ⟨A, op, M, true⟩ t =
      ⟨A ++ pySplit '|' t, "OR", M, true⟩ := by
  have h1' : ¬(t ∈ known ∨ t ∈ plugins) := by simpa using h1
  simp [parseStep, h1', h2, h3]

theorem parseStep_stop (known plugins A : List String) (op : String)
    (M : List String) (t : String)
    (h1 : (known.contains t || plugins.contains t) = false)
    (h2 : containsChar t '&' = false)
    (h3 : containsChar t '|' = false) :
    parseStep known plugins ⟨A, op, M, true⟩ t = ⟨A, op, M ++ [t], false⟩ := by
  have h1' : ¬(t ∈ known ∨ t ∈ plugins) := by simpa using h1
  simp [parseStep, h1', h2, h3]

/-- After the `parsing_approaches` flag drops to `False`, every remaining
token is appended to `model_parts` unchanged. -/
theorem foldl_parseStep_not_parsing (known plugins : List String) :
    ∀ (tokens A : List String) (op : String) (M : List String),
      tokens.foldl (parseStep known plugins) ⟨A, op, M, false⟩ =
        ⟨A, op, M ++ tokens, false⟩ := by
  intro tokens
  induction tokens with
  | nil => intro A op M; simp
  | cons t ts ih =>
    intro A op M
    rw [List.foldl_cons, parseStep_not_parsing, ih]
    simp

/-- The token loop of `parse_combined_approach` characterized by
`takeWhile`/`dropWhile` on the strategy-token predicate. -/
theorem foldl_parseStep_parsing (known plugins : List String) :
    ∀ (tokens A : List String) (op : String) (M : List String),
      tokens.foldl (parseStep known plugins) ⟨A, op, M, true⟩ =
        ⟨A ++ (tokens.takeWhile (isStrategyToken known plugins)).flatMap
            (tokenStrategies known plugins),
         (tokens.takeWhile (isStrategyToken known plugins)).foldl
            (tokenOperation known plugins) op,
         M ++ tokens.dropWhile (isStrategyToken known plugins),
         (tokens.dropWhile (isStrategyToken known plugins)).isEmpty⟩ := by
  intro tokens
  induction tokens with
  | nil => intro A op M; simp
  | cons t ts ih =>
    intro A op M
    by_cases h1 : (known.contains t || plugins.contains t) = true
    · have hmem : t ∈ known ∨ t ∈ plugins := by simpa using h1
      have hstrat : isStrategyToken known plugins t = true := by
        simp only [isStrategyToken, h1, Bool.true_or]
      rw [List.foldl_cons, parseStep_slug known plugins A op M t h1, ih]
      simp [List.takeWhile_cons, List.dropWhile_cons, hstrat,
        tokenStrategies, tokenOperation, hmem]
    · have h1f : (known.contains t || plugins.contains t) = false := by
        simpa using h1
      have hnmem : ¬(t ∈ known ∨ t ∈ plugins) := by simpa using h1f
      by_cases h2 : containsChar t '&' = true
      · have hstrat : isStrategyToken known plugins t = true := by
          simp only [isStrategyToken, h2, Bool.true_or, Bool.or_true]
        rw [List.foldl_cons, parseStep_amp known plugins A op M t h1f h2, ih]
        simp [List.takeWhile_cons, List.dropWhile_cons, hstrat,
          tokenStrategies, tokenOperation, hnmem, h2]
      · have h2f : containsChar t '&' = false := by simpa using h2
        by_cases h3 : containsChar t '|' = true
        · have hstrat : isStrategyToken known plugins t = true := by
            simp only [isStrategyToken, h3, Bool.or_true]
          rw [List.foldl_cons, parseStep_pipe known plugins A op M t h1f h2f h3, ih]
          simp [List.takeWhile_cons, List.dropWhile_cons, hstrat,
            tokenStrategies, tokenOperation, hnmem, h2f, h3]
        · have h3f : containsChar t '|' = false := by simpa using h3
          have hstrat : isStrategyToken known plugins t = false := by
            simp only [isStrategyToken, h1f, h2f, h3f, Bool.or_false]
          rw [List.foldl_cons, parseStep_stop known plugins A op M t h1f h2f h3f,
            foldl_parseStep_not_parsing]
          simp [List.takeWhile_cons, List.dropWhile_cons, hstrat]

/-- C1: the model-identifier parser computes exactly the algorithm the
spec describes — `"auto"` short-circuits to `(SINGLE, ["none"], "auto")`;
tokens are scanned left to right, slug tokens are appended, `&`/`|`
tokens are split and set the operator (the last operator-setting token
wins), the first non-matching token and everything after it are rejoined
with `-` as the base model name, and an empty strategy list defaults to
`(SINGLE, ["none"], modelString)`. -/
theorem c1_parser_computes_spec_algorithm (model : String) (known plugins : List String) :
    parse_combined_approach model known plugins = parse_spec_model model known plugins := by
  by_cases hauto : (model == "auto") = true
  · have hm : model = "auto" := by simpa using hauto
    subst hm
    rfl
  · simp only [parse_combined_approach, parse_spec_model, if_neg hauto]
    rw [foldl_parseStep_parsing]
    cases hp : (pySplit '-' model).takeWhile (isStrategyToken known plugins) with
    | nil =>
      have hdrop : (pySplit '-' model).dropWhile (isStrategyToken known plugins) =
          pySplit '-' model := by
        cases htok : pySplit '-' model with
        | nil => rfl
        | cons t ts =>
          rw [htok, List.takeWhile_cons] at hp
          by_cases hs : isStrategyToken known plugins t = true
          · rw [if_pos hs] at hp
            exact absurd hp (by simp)
          · rw [List.dropWhile_cons, if_neg hs]
      simp [hdrop, pyJoin_pySplit]
    | cons t ts =>
      have hne : (tokenStrategies known plugins t ++
          ts.flatMap (tokenStrategies known plugins)).isEmpty = false := by
        rw [List.isEmpty_eq_false]
        intro hcontra
        rw [List.append_eq_nil] at hcontra
        exact tokenStrategies_ne_nil known plugins t hcontra.1
      simp [hne]

/-! ## Combinator engine (optillm.py 297-441)

A strategy (the callable behind one slug, as invoked by
`execute_single_approach`) is embedded as a function from
`(system_prompt, query, model)` to `Except String (response, tokens)` —
the opaque `client` handle and the request-scoped configuration are
fixed per request and therefore absorbed into the closure; a raised
Python exception is an `Except.error`.
-/

/-- The calling convention of one strategy invocation:
`system_prompt → query → model → (response, token count)`, or a raised
exception. -/
def Strategy : Type :=
  String → String → String → Except String (String × Nat)

/-- A strategy implementation that never raises (for stating the laws
about successful chains). -/
def pureStrategy (f : String → String → String → String × Nat) : Strategy :=
  fun sp q m => Except.ok (f sp q m)

/-- The loop of `execute_combined_approaches` (optillm.py 378-385):
`final_response` starts as the initial query, each strategy is invoked
on the previous response, and token counts accumulate. -/
def execute_combined_loop (approaches : List Strategy) (system_prompt : String)
    (final_response : String) (total_tokens : Nat) (model : String) :
    Except String (String × Nat) :=
  match approaches with
  | [] => Except.ok (final_response, total_tokens)
  | a :: rest => do
    let r ← a system_prompt final_response model
    execute_combined_loop rest system_prompt r.1 (total_tokens + r.2) model

/-- `execute_combined_approaches` (optillm.py 378-385): the AND
(sequential pipeline) combinator. -/
def execute_combined_approaches (approaches : List Strategy)
    (system_prompt initial_query model : String) : Except String (String × Nat) :=
  execute_combined_loop approaches system_prompt initial_query 0 model

/-- The `asyncio.gather` of `execute_parallel_approaches`
(optillm.py 387-394): every branch receives the same original query;
the results are collected in the order of the strategy list; a raised
exception in any branch fails the whole gather with no partial
results. -/
def gatherResults (approaches : List Strategy)
    (system_prompt initial_query model : String) :
    Except String (List (String × Nat)) :=
  match approaches with
  | [] => Except.ok []
  | a :: rest => do
    let r ← a system_prompt initial_query model
    let rs ← gatherResults rest system_prompt initial_query model
    Except.ok (r :: rs)

/-- `execute_parallel_approaches` (optillm.py 387-394): the OR
(concurrent fan-out) combinator.  `zip(*results)` on an empty result
list raises a `ValueError` in Python, which is kept as an error case. -/
def execute_parallel_approaches (approaches : List Strategy)
    (system_prompt initial_query model : String) :
    Except String (List String × Nat) := do
  let results ← gatherResults approaches system_prompt initial_query model
  match results with
  | [] => Except.error "ValueError: not enough values to unpack (expected 2, got 0)"
  | _ =>
    Except.ok (results.map Prod.fst, (results.map Prod.snd).sum)

/-- The aggregate produced by `execute_n_times`: either a single bare
response (the `n == 1 and len(responses) == 1` case) or the list of
responses. -/
inductive AggResult where
  | single (s : String)
  | multi (l : List String)
deriving DecidableEq

/-- One iteration of the `for _ in range(n)` loop of `execute_n_times`
(optillm.py 416-427): dispatch on the operation.  `approaches[0]` on an
empty list raises `IndexError`; an unknown operation raises
`ValueError`.  The result is `Sum.inl` for a single response and
`Sum.inr` for the list a parallel (OR) execution returns. -/
def execute_iteration (approaches : List Strategy) (operation : String)
    (system_prompt initial_query model : String) :
    Except String ((String ⊕ List String) × Nat) :=
  if operation == "SINGLE" then
    match approaches with
    | [] => Except.error "list index out of range"
    | a :: _ => do
      let r ← a system_prompt initial_query model
      Except.ok (Sum.inl r.1, r.2)
  else if operation == "AND" then do
    let r ← execute_combined_approaches approaches system_prompt initial_query model
    Except.ok (Sum.inl r.1, r.2)
  else if operation == "OR" then do
    let r ← execute_parallel_approaches approaches system_prompt initial_query model
    Except.ok (Sum.inr r.1, r.2)
  else Except.error ("Unknown operation: " ++ operation)

/-- The accumulation loop of `execute_n_times` (optillm.py 413-435):
a list-valued result (from OR) is spliced flat into `responses`
(`responses.extend`), a single result is appended, and token counts
accumulate. -/
def execute_n_times_loop (k : Nat) (approaches : List Strategy) (operation : String)
    (system_prompt initial_query model : String)
    (responses : List String) (total_tokens : Nat) :
    Except String (List String × Nat) :=
  match k with
  | 0 => Except.ok (responses, total_tokens)
  | Nat.succ k' => do
    let r ← execute_iteration approaches operation system_prompt initial_query model
    let responses' := match r.1 with
      | Sum.inl s => responses ++ [s]
      | Sum.inr l => responses ++ l
    execute_n_times_loop k' approaches operation system_prompt initial_query model
      responses' (total_tokens + r.2)

/-- `execute_n_times` (optillm.py 396-441): run the combinator unit `n`
times; if `n == 1` and exactly one response was produced, return it
bare, otherwise return the list of responses. -/
def execute_n_times (n : Nat) (approaches : List Strategy) (operation : String)
    (system_prompt initial_query model : String) :
    Except String (AggResult × Nat) := do
  let r ← execute_n_times_loop n approaches operation system_prompt initial_query model [] 0
  if n == 1 && r.1.length == 1 then
    Except.ok (AggResult.single (r.1.headD ""), r.2)
  else
    Except.ok (AggResult.multi r.1, r.2)

/-- Ghost trace of the sequential (AND) chain for pure strategies: for
each strategy in order, the `(system_prompt, query, model)` triple it is
invoked with and the `(response, tokens)` pair it returns.  It mirrors
the loop of `execute_combined_approaches` exactly. -/
def chainTrace (fs : List (String → String → String → String × Nat))
    (system_prompt query model : String) :
    List ((String × String × String) × (String × Nat)) :=
  match fs with
  | [] => []
  | f :: rest =>
    ((system_prompt, query, model), f system_prompt query model) ::
      chainTrace rest system_prompt (f system_prompt query model).1 model

/-- The AND loop on pure strategies delivers the last output of the
chain and the accumulated token total. -/
theorem execute_combined_loop_pure
    (system_prompt model : String) :
    ∀ (fs : List (String → String → String → String × Nat)) (q : String) (tok : Nat),
      execute_combined_loop (fs.map pureStrategy) system_prompt q tok model =
        Except.ok
          (((chainTrace fs system_prompt q model).map (fun e => e.2.1)).getLastD q,
           tok + ((chainTrace fs system_prompt q model).map (fun e => e.2.2)).sum) := by
  intro fs
  induction fs with
  | nil => intro q tok; simp [execute_combined_loop, chainTrace]
  | cons f rest ih =>
    intro q tok
    simp only [List.map_cons, execute_combined_loop, pureStrategy, Bind.bind,
      Except.bind, chainTrace, List.getLastD_cons, List.map_cons, List.sum_cons]
    rw [ih]
    congr 2
    omega

/-- C2: the AND combinator is a sequential pipeline — the query passed
to strategy `i+1` is the content returned by strategy `i` (the first
strategy receives the initial query), every strategy receives the same
fixed system prompt and model, the returned content is the last
strategy's output, and the returned token count is the sum over the
chain. -/
theorem c2_and_sequential_pipeline
    (fs : List (String → String → String → String × Nat))
    (system_prompt initial_query model : String) :
    execute_combined_approaches (fs.map pureStrategy) system_prompt initial_query model =
      Except.ok
        (((chainTrace fs system_prompt initial_query model).map
            (fun e => e.2.1)).getLastD initial_query,
         ((chainTrace fs system_prompt initial_query model).map (fun e => e.2.2)).sum) ∧
    (chainTrace fs system_prompt initial_query model).map (fun e => e.1.2.1) =
      (initial_query ::
        (chainTrace fs system_prompt initial_query model).map (fun e => e.2.1)).dropLast ∧
    ∀ e ∈ chainTrace fs system_prompt initial_query model,
      e.1.1 = system_prompt ∧ e.1.2.2 = model := by
  refine ⟨?_, ?_, ?_⟩
  · simpa using execute_combined_loop_pure system_prompt model fs initial_query 0
  · induction fs generalizing initial_query with
    | nil => simp [chainTrace]
    | cons f rest ih =>
      simp only [chainTrace, List.map_cons]
      rw [ih]
      cases hrest : chainTrace rest system_prompt
          (f system_prompt initial_query model).1 model <;> simp [List.dropLast]
  · induction fs generalizing initial_query with
    | nil => simp [chainTrace]
    | cons f rest ih =>
      intro e he
      simp only [chainTrace, List.mem_cons] at he
      rcases he with he | he
      · subst he; exact ⟨rfl, rfl⟩
      · exact ih _ e he

/-- Gathering pure strategies collects, in list order, each strategy
applied to the same original query. -/
theorem gatherResults_pure (system_prompt initial_query model : String) :
    ∀ (fs : List (String → String → String → String × Nat)),
      gatherResults (fs.map pureStrategy) system_prompt initial_query model =
        Except.ok (fs.map (fun f => f system_prompt initial_query model)) := by
  intro fs
  induction fs with
  | nil => rfl
  | cons f rest ih =>
    simp only [List.map_cons, gatherResults, pureStrategy, Bind.bind, Except.bind]
    rw [ih]

/-- If any branch of the gather raises, the whole gather raises. -/
theorem gatherResults_error (system_prompt initial_query model : String) :
    ∀ (approaches : List Strategy) (a : Strategy) (e : String),
      a ∈ approaches → a system_prompt initial_query model = Except.error e →
      ∃ e', gatherResults approaches system_prompt initial_query model =
        Except.error e' := by
  intro approaches
  induction approaches with
  | nil => intro a e ha; simp at ha
  | cons b rest ih =>
    intro a e ha herr
    rcases List.mem_cons.mp ha with hb | hrest
    · subst hb
      exact ⟨e, by simp [gatherResults, herr, Bind.bind, Except.bind]⟩
    · cases hb : b system_prompt initial_query model with
      | error e0 =>
        exact ⟨e0, by simp [gatherResults, hb, Bind.bind, Except.bind]⟩
      | ok r0 =>
        obtain ⟨e', he'⟩ := ih a e hrest herr
        exact ⟨e', by simp [gatherResults, hb, he', Bind.bind, Except.bind]⟩

/-- C3: the OR combinator passes the same original query to every
strategy, returns the contents in the order of the strategy list with
the token counts summed, and fails as a whole — returning no partial
results — as soon as any branch raises. -/
theorem c3_or_parallel_fanout (system_prompt initial_query model : String) :
    (∀ (fs : List (String → String → String → String × Nat)), fs ≠ [] →
      execute_parallel_approaches (fs.map pureStrategy)
          system_prompt initial_query model =
        Except.ok
          (fs.map (fun f => (f system_prompt initial_query model).1),
           (fs.map (fun f => (f system_prompt initial_query model).2)).sum)) ∧
    (∀ (approaches : List Strategy) (a : Strategy) (e : String),
      a ∈ approaches → a system_prompt initial_query model = Except.error e →
      ∃ e', execute_parallel_approaches approaches system_prompt initial_query model =
        Except.error e') := by
  constructor
  · intro fs hne
    simp only [execute_parallel_approaches, Bind.bind, Except.bind,
      gatherResults_pure system_prompt initial_query model fs]
    cases fs with
    | nil => exact absurd rfl hne
    | cons f rest => simp [List.map_map, Function.comp_def]
  · intro approaches a e ha herr
    obtain ⟨e', he'⟩ := gatherResults_error system_prompt initial_query model
      approaches a e ha herr
    exact ⟨e', by simp [execute_parallel_approaches, he', Bind.bind, Except.bind]⟩

/-- The responses one iteration contributes to the running list: a
single response as a one-element list, a list response as itself (the
`responses.extend` splice of optillm.py 429-434). -/
def iterationResponses : String ⊕ List String → List String
  | Sum.inl s => [s]
  | Sum.inr l => l

/-- When every iteration returns the same result `(r, t)`, the loop of
`execute_n_times` accumulates `k` spliced copies of the iteration's
responses and `k·t` tokens. -/
theorem execute_n_times_loop_const (approaches : List Strategy) (operation : String)
    (system_prompt initial_query model : String) (r : String ⊕ List String) (t : Nat)
    (h : execute_iteration approaches operation system_prompt initial_query model =
      Except.ok (r, t)) :
    ∀ (k : Nat) (responses : List String) (total : Nat),
      execute_n_times_loop k approaches operation system_prompt initial_query model
          responses total =
        Except.ok (responses ++ (List.replicate k (iterationResponses r)).flatten,
          total + k * t) := by
  intro k
  induction k with
  | zero => intro responses total; simp [execute_n_times_loop]
  | succ k' ih =>
    intro responses total
    simp only [execute_n_times_loop, h, Bind.bind, Except.bind]
    have harith : total + t + k' * t = total + (k' + 1) * t := by ring
    cases r with
    | inl s =>
      rw [ih, harith]
      simp [iterationResponses, List.replicate_succ, List.append_assoc]
    | inr l =>
      rw [ih, harith]
      simp [iterationResponses, List.replicate_succ, List.append_assoc]

/-- C4: `execute_n_times` executes the combinator unit exactly `N`
times with identical inputs, splices list-valued (OR) results flat into
the running response list, sums token counts across repetitions, and
returns a bare single value exactly when `N = 1` and exactly one
response was produced — otherwise the full ordered list. -/
theorem c4_repetition_aggregate (n : Nat) (approaches : List Strategy)
    (operation system_prompt initial_query model : String)
    (r : String ⊕ List String) (t : Nat)
    (hn : 1 ≤ n)
    (h : execute_iteration approaches operation system_prompt initial_query model =
      Except.ok (r, t)) :
    execute_n_times n approaches operation system_prompt initial_query model =
      Except.ok
        ((if n = 1 ∧ (iterationResponses r).length = 1
          then AggResult.single ((iterationResponses r).headD "")
          else AggResult.multi ((List.replicate n (iterationResponses r)).flatten)),
         n * t) := by
  simp only [execute_n_times, Bind.bind,
    execute_n_times_loop_const approaches operation system_prompt initial_query model
      r t h n [] 0, Except.bind, List.nil_append, Nat.zero_add]
  by_cases hn1 : n = 1
  · subst hn1
    simp only [List.replicate_one, List.flatten, List.append_nil]
    by_cases hl : (iterationResponses r).length = 1
    · simp [hl]
    · have : ((iterationResponses r).length == 1) = false := by
        simpa using hl
      simp [this, hl]
  · have hb : (n == 1) = false := by simpa using hn1
    simp [hb, hn1]

/-- C9: an identifier whose leading tokens are several known slugs
joined by `-` (no `&`/`|`) parses to operator `SINGLE` with more than
one slug — e.g. `"bon-moa-gpt-4o"` yields `(SINGLE, [bon, moa],
gpt-4o)` — and under `SINGLE`, `execute_n_times` only ever invokes the
first strategy of the list: the remaining strategies are ignored and
contribute neither content nor tokens. -/
theorem c9_single_ignores_trailing_slugs :
    parse_combined_approach "bon-moa-gpt-4o" known_approaches [] =
      ("SINGLE", ["bon", "moa"], "gpt-4o") ∧
    ∀ (n : Nat) (a : Strategy) (rest : List Strategy)
      (system_prompt initial_query model : String),
      execute_n_times n (a :: rest) "SINGLE" system_prompt initial_query model =
        execute_n_times n [a] "SINGLE" system_prompt initial_query model := by
  constructor
  · decide
  · intro n a rest system_prompt initial_query model
    have hiter : execute_iteration (a :: rest) "SINGLE" system_prompt initial_query
        model = execute_iteration [a] "SINGLE" system_prompt initial_query model := rfl
    have hloop : ∀ (k : Nat) (responses : List String) (total : Nat),
        execute_n_times_loop k (a :: rest) "SINGLE" system_prompt initial_query model
            responses total =
          execute_n_times_loop k [a] "SINGLE" system_prompt initial_query model
            responses total := by
      intro k
      induction k with
      | zero => intro responses total; rfl
      | succ k' ih =>
        intro responses total
        simp only [execute_n_times_loop, hiter, Bind.bind]
        cases execute_iteration [a] "SINGLE" system_prompt initial_query model with
        | error e => rfl
        | ok res => simp only [Except.bind, ih]
    simp only [execute_n_times, Bind.bind, hloop]

/-! ## Gateway dispatch (`proxy`, optillm.py 639-663)

The outcome of the `try`/`except` block of the request handler: the
direct passthrough branch, an error rendered by the `except` clause as
`jsonify(error), 500`, or a completed combinator execution.  The
per-slug strategy implementations are abstracted as an environment
`env : String → Strategy` (the table `execute_single_approach`
dispatches over).
-/

/-- The observable outcome of the `try` block of `proxy`. -/
inductive ProxyOutcome where
  | passthrough (result : String) (status : Nat)
  | errorResp (message : String) (status : Nat)
  | completion (response : AggResult) (tokens : Nat) (status : Nat)
deriving DecidableEq

/-- The `try`/`except` dispatch of `proxy` (optillm.py 639-663):
a `SINGLE` operation whose first slug is `none` is passed through
directly; an `AND`/`OR` operation whose slug list contains `none`
raises `ValueError` before any strategy runs; everything else goes
through `execute_n_times`.  Every exception is rendered as a JSON error
body with status 500. -/
def proxy_try_block (operation : String) (approaches : List String)
    (env : String → Strategy) (n : Nat)
    (system_prompt initial_query model : String) : ProxyOutcome :=
  let contains_none := approaches.any (fun a => a == "none")
  if operation == "SINGLE" && (approaches.headD "") == "none" then
    match env "none" system_prompt initial_query model with
    | Except.error e => ProxyOutcome.errorResp e 500
    | Except.ok r => ProxyOutcome.passthrough r.1 200
  else if (operation == "AND" || operation == "OR") && contains_none then
    ProxyOutcome.errorResp "none approach cannot be combined with other approaches" 500
  else
    match execute_n_times n (approaches.map env) operation
        system_prompt initial_query model with
    | Except.error e => ProxyOutcome.errorResp e 500
    | Except.ok r => ProxyOutcome.completion r.1 r.2 200

/-- C5: whenever the parsed operator is AND or OR and `none` appears
anywhere in the strategies list, the request is rejected with the
invalid-combination error before any strategy is executed (the outcome
is the same for every strategy environment), rendered as a JSON error
body with server-error status 500. -/
theorem c5_none_combination_rejected (operation : String) (approaches : List String)
    (hop : operation = "AND" ∨ operation = "OR")
    (hnone : "none" ∈ approaches) :
    ∀ (env : String → Strategy) (n : Nat)
      (system_prompt initial_query model : String),
      proxy_try_block operation approaches env n system_prompt initial_query model =
        ProxyOutcome.errorResp
          "none approach cannot be combined with other approaches" 500 := by
  intro env n system_prompt initial_query model
  have hsingle : (operation == "SINGLE") = false := by
    rcases hop with h | h <;> subst h <;> decide
  have hor : (operation == "AND" || operation == "OR") = true := by
    rcases hop with h | h <;> subst h <;> decide
  have hany : approaches.any (fun a => a == "none") = true := by
    rw [List.any_eq_true]
    exact ⟨"none", hnone, by decide⟩
  simp [proxy_try_block, hsingle, hor, hany]

/-! ## Streaming renderer (`generate_streaming_response`, optillm.py 443-458) -/

/-- One server-sent event frame: either a content frame (the JSON
payload `choices: [delta.content, index, finish_reason]` plus the
model) or the terminal `[DONE]` sentinel. -/
inductive StreamFrame where
  | data (content : String) (index : Nat) (finish : String) (model : String)
  | done
deriving DecidableEq

/-- `generate_streaming_response` (optillm.py 443-458): one content
frame per element of a list-valued response (index = position, the
whole element as a single delta, finish reason `stop`), a single frame
for a bare response, then exactly one `[DONE]` sentinel. -/
def generate_streaming_response (final_response : AggResult) (model : String) :
    List StreamFrame :=
  match final_response with
  | AggResult.multi l =>
    (l.enum.map (fun p => StreamFrame.data p.2 p.1 "stop" model)) ++ [StreamFrame.done]
  | AggResult.single s =>
    [StreamFrame.data s 0 "stop" model, StreamFrame.done]

/-- C7: streaming a list aggregate of length `k` emits exactly `k`
content frames — frame `i` carrying index `i` and the whole `i`-th
element with finish reason `stop` — followed by exactly one terminal
sentinel, after which nothing more is emitted; a bare aggregate emits
one content frame with index 0 and then the sentinel. -/
theorem c7_streaming_frames (l : List String) (s model : String) :
    (generate_streaming_response (AggResult.multi l) model).length = l.length + 1 ∧
    (∀ i (h : i < l.length),
      (generate_streaming_response (AggResult.multi l) model).get? i =
        some (StreamFrame.data (l.get ⟨i, h⟩) i "stop" model)) ∧
    (generate_streaming_response (AggResult.multi l) model).get? l.length =
      some StreamFrame.done ∧
    (∀ j, l.length < j →
      (generate_streaming_response (AggResult.multi l) model).get? j = none) ∧
    (generate_streaming_response (AggResult.multi l) model).count StreamFrame.done = 1 ∧
    generate_streaming_response (AggResult.single s) model =
      [StreamFrame.data s 0 "stop" model, StreamFrame.done] := by
  refine ⟨by simp [generate_streaming_response], ?_, ?_, ?_, ?_, rfl⟩
  · intro i h
    simp only [generate_streaming_response]
    rw [List.get?_append (by simpa using h)]
    rw [List.get?_map]
    rw [List.get?_enum]
    simp [List.get?_eq_get h]
  · simp only [generate_streaming_response]
    rw [List.get?_append_right (by simp)]
    simp
  · intro j hj
    simp only [generate_streaming_response]
    rw [List.get?_eq_none.mpr]
    simp only [List.length_append, List.length_map, List.enum_length,
      List.length_singleton]
    omega
  · simp only [generate_streaming_response]
    rw [List.count_append]
    have hzero : ((l.enum.map
        (fun p => StreamFrame.data p.2 p.1 "stop" model)).count StreamFrame.done) = 0 := by
      rw [List.count_eq_zero]
      intro hmem
      rcases List.mem_map.mp hmem with ⟨p, _, hp⟩
      exact absurd hp (by simp)
    rw [hzero]
    rfl

/-! ## Bearer-token authentication (`check_api_key`, optillm.py 563-575,
and `health`, optillm.py 731-733)

`check_api_key` runs before every request (`@app.before_request`);
returning a reply short-circuits the route, returning nothing lets the
route run.  The Python error bodies are JSON objects; only their
message text and status are modeled.  `secrets.compare_digest` is a
constant-time string equality; its result equals plain equality, which
is what is embedded (the timing property itself is outside a functional
embedding).  Since Python guards with `startswith("Bearer ")` before
`split("Bearer ", 1)[1]`, the split result equals the header with its
first 7 characters removed.
-/

/-- An HTTP reply: body text and status code. -/
structure HttpReply where
  body : String
  status : Nat
deriving DecidableEq

/-- `check_api_key` (optillm.py 563-575): `some reply` short-circuits
the request, `none` lets it proceed.  The key is configured when it is
non-empty (Python truthiness of the string). -/
def check_api_key (optillm_api_key path : String) (auth_header : Option String) :
    Option HttpReply :=
  if optillm_api_key ≠ "" then
    if path == "/health" then none
    else
      match auth_header with
      | none => some ⟨"Invalid Authorization header. Expected format: Bearer YOUR_API_KEY", 401⟩
      | some h =>
        if startsWithChars "Bearer ".data h.data then
          let client_key := pyStrip (String.mk (h.data.drop 7))
          if client_key == optillm_api_key then none
          else some ⟨"Invalid API key", 401⟩
        else some ⟨"Invalid Authorization header. Expected format: Bearer YOUR_API_KEY", 401⟩
  else none

/-- `health` (optillm.py 731-733): always replies 200. -/
def health : HttpReply :=
  ⟨"status ok", 200⟩

/-- Flask's before-request gate: if `check_api_key` returns a reply the
route never runs; otherwise the route's reply is returned. -/
def handle_request (optillm_api_key path : String) (auth_header : Option String)
    (route : Unit → HttpReply) : HttpReply :=
  match check_api_key optillm_api_key path auth_header with
  | some reply => reply
  | none => route ()

/-- Does the request carry a bearer credential matching the configured
key, in the sense of `check_api_key`'s comparison? -/
def bearerMatches (auth_header : Option String) (optillm_api_key : String) : Bool :=
  match auth_header with
  | none => false
  | some h =>
    startsWithChars "Bearer ".data h.data &&
      pyStrip (String.mk (h.data.drop 7)) == optillm_api_key

/-- C8: with a key configured, every non-health request without a
matching bearer credential is answered 401 by the gate — for every
route, so before any strategy logic runs; a request with the matching
credential proceeds to its route; and the health endpoint always
succeeds with 200, whatever the key and credential. -/
theorem c8_bearer_authentication (optillm_api_key path : String)
    (auth_header : Option String) :
    (optillm_api_key ≠ "" → path ≠ "/health" →
      bearerMatches auth_header optillm_api_key = false →
      ∀ route : Unit → HttpReply,
        (handle_request optillm_api_key path auth_header route).status = 401) ∧
    (bearerMatches auth_header optillm_api_key = true →
      ∀ route : Unit → HttpReply,
        handle_request optillm_api_key path auth_header route = route ()) ∧
    handle_request optillm_api_key "/health" auth_header (fun _ => health) = health := by
  refine ⟨?_, ?_, ?_⟩
  · intro hkey hpath hmatch route
    have hp : (path == "/health") = false := by
      simpa using hpath
    cases auth_header with
    | none => simp [handle_request, check_api_key, hkey, hp]
    | some h =>
      simp only [bearerMatches, Bool.and_eq_false_iff] at hmatch
      rcases hmatch with hb | hb
      · simp [handle_request, check_api_key, hkey, hp, hb]
      · by_cases hsw : startsWithChars "Bearer ".data h.data = true
        · have hne : (pyStrip (String.mk (h.data.drop 7)) == optillm_api_key) = false := by
            simpa using hb
          simp [handle_request, check_api_key, hkey, hp, hsw, hne]
        · have hswf : startsWithChars "Bearer ".data h.data = false := by
            simpa using hsw
          simp [handle_request, check_api_key, hkey, hp, hswf]
  · intro hmatch route
    cases auth_header with
    | none => simp [bearerMatches] at hmatch
    | some h =>
      simp only [bearerMatches, Bool.and_eq_true] at hmatch
      by_cases hkey : optillm_api_key ≠ ""
      · by_cases hp : (path == "/health") = true
        · simp [handle_request, check_api_key, hkey, hp]
        · have hpf : (path == "/health") = false := by simpa using hp
          simp [handle_request, check_api_key, hkey, hpf, hmatch.1, hmatch.2]
      · simp only [ne_eq, Decidable.not_not] at hkey
        simp [handle_request, check_api_key, hkey]
  · by_cases hkey : optillm_api_key ≠ ""
    · simp [handle_request, check_api_key, hkey]
    · simp only [ne_eq, Decidable.not_not] at hkey
      simp [handle_request, check_api_key, hkey]

/-! ## Process-wide configuration mutation (`proxy`, optillm.py 612-614;
`server_config`, optillm.py 97-113)

`server_config` is a module-level dictionary shared by every request.
Lines 612-614 of `proxy` overwrite its `mcts_depth`,
`mcts_exploration` and `mcts_simulations` entries with
`data.get(key, server_config[key])` before executing any strategy.
Only these three entries are modeled; their values are kept abstract
(`mcts_exploration` is a float in the source), since the claim is about
the writes, not about arithmetic on the values.
-/

/-- The `mcts_*` entries of `server_config`. -/
structure MctsConfig (V : Type) where
  mcts_depth : V
  mcts_exploration : V
  mcts_simulations : V
deriving DecidableEq

/-- The `mcts_*` fields of a request body: `none` when the key is
absent from the request JSON (`data.get` returns the default). -/
structure MctsRequestFields (V : Type) where
  mcts_depth : Option V
  mcts_exploration : Option V
  mcts_simulations : Option V
deriving DecidableEq

/-- Lines 612-614 of `proxy`: each entry is overwritten with the
request's value, or re-written with its current value when the request
omits the key. -/
def proxy_update_config {V : Type} (cfg : MctsConfig V)
    (data : MctsRequestFields V) : MctsConfig V :=
  { mcts_depth := data.mcts_depth.getD cfg.mcts_depth,
    mcts_exploration := data.mcts_exploration.getD cfg.mcts_exploration,
    mcts_simulations := data.mcts_simulations.getD cfg.mcts_simulations }

/-- One request through `proxy`, seen through the shared
`server_config`: the configuration is updated first (optillm.py
612-614), the execution phase reads the updated configuration
(e.g. `chat_with_mcts` at optillm.py 313-314 reads
`server_config[mcts_*]`), and the updated configuration is the state
left behind for later requests. -/
def proxy_handle_config {V R : Type} (cfg : MctsConfig V)
    (data : MctsRequestFields V) (exec : MctsConfig V → R) :
    R × MctsConfig V :=
  (exec (proxy_update_config cfg data), proxy_update_config cfg data)

/-- C10: handling a request overwrites the process-wide `mcts_*`
configuration entries with the request's values (or re-writes the
current values when absent) before execution — the execution phase
observes the updated entries — and the writes persist after the
request completes, so a subsequent request starts from the mutated
state rather than from a request-scoped copy. -/
theorem c10_server_config_mutation {V R : Type} (cfg : MctsConfig V)
    (data1 data2 : MctsRequestFields V) (exec : MctsConfig V → R) :
    (∀ d, data1.mcts_depth = some d →
      (proxy_handle_config cfg data1 exec).2.mcts_depth = d) ∧
    (data1.mcts_depth = none →
      (proxy_handle_config cfg data1 exec).2.mcts_depth = cfg.mcts_depth) ∧
    (∀ e, data1.mcts_exploration = some e →
      (proxy_handle_config cfg data1 exec).2.mcts_exploration = e) ∧
    (∀ s, data1.mcts_simulations = some s →
      (proxy_handle_config cfg data1 exec).2.mcts_simulations = s) ∧
    (proxy_handle_config cfg data1 exec).1 = exec (proxy_update_config cfg data1) ∧
    proxy_handle_config (proxy_handle_config cfg data1 exec).2 data2 exec =
      proxy_handle_config (proxy_update_config cfg data1) data2 exec := by
  refine ⟨?_, ?_, ?_, ?_, rfl, rfl⟩
  · intro d hd
    simp [proxy_handle_config, proxy_update_config, hd]
  · intro hd
    simp [proxy_handle_config, proxy_update_config, hd]
  · intro e he
    simp [proxy_handle_config, proxy_update_config, he]
  · intro s hs
    simp [proxy_handle_config, proxy_update_config, hs]

/-! ## Transcript normalization
(`tagged_conversation_to_messages`, optillm.py 506-552, and its use in
`proxy`, optillm.py 665-676)

`process_single_response` splits a tagged string with
`re.split(r'(?=(User:|Assistant:))', text.strip())`.  A zero-width
lookahead with a capture group makes `re.split` cut immediately before
every `User:`/`Assistant:` occurrence *and* insert the captured marker
itself as an extra list element, so the split of
`"User: hi\nAssistant: hello"` is
`['', 'User:', 'User: hi\n', 'Assistant:', 'Assistant: hello']`.
`reSplitTagsGo` reproduces this: it scans character by character,
and at every position where a marker starts it emits the segment read
so far, then the marker, and starts the next segment at that same
position.
-/

/-- The characters of `"User:"`. -/
def userMarker : List Char := ['U', 's', 'e', 'r', ':']

/-- The characters of `"Assistant:"`. -/
def assistantMarker : List Char := ['A', 's', 's', 'i', 's', 't', 'a', 'n', 't', ':']

/-- The marker (if any) starting at this position, trying `User:` first
exactly like the regex alternation `User:|Assistant:`. -/
def markerAt (l : List Char) : Option (List Char) :=
  if startsWithChars userMarker l then some userMarker
  else if startsWithChars assistantMarker l then some assistantMarker
  else none

/-- The scan of `re.split(r'(?=(User:|Assistant:))', ·)`: `cur` is the
current segment, reversed. -/
def reSplitTagsGo : List Char → List Char → List String
  | cur, [] => [String.mk cur.reverse]
  | cur, c :: rest =>
    match markerAt (c :: rest) with
    | some m => String.mk cur.reverse :: String.mk m :: reSplitTagsGo [c] rest
    | none => reSplitTagsGo (c :: cur) rest

/-- `re.split(r'(?=(User:|Assistant:))', s)` with the captured markers
interleaved, as Python returns it. -/
def reSplitTags (s : String) : List String :=
  reSplitTagsGo [] s.data

/-- `has_conversation_tags` (optillm.py 518-519): Python
`"User:" in text or "Assistant:" in text`. -/
def has_conversation_tags (text : String) : Bool :=
  containsSubChars userMarker text.data || containsSubChars assistantMarker text.data

/-- One `{role, content}` entry of the normalized transcript. -/
structure ChatMessage where
  role : String
  content : String
deriving DecidableEq

/-- The loop body of `process_single_response` (optillm.py 531-542):
strip the part, classify it by its marker, keep the text after the
marker (5 resp. 10 characters), stripped; unmarked parts are skipped. -/
def partToMessage (part : String) : Option ChatMessage :=
  let p := pyStrip part
  if startsWithChars userMarker p.data then
    some ⟨"user", pyStrip (String.mk (p.data.drop 5))⟩
  else if startsWithChars assistantMarker p.data then
    some ⟨"assistant", pyStrip (String.mk (p.data.drop 10))⟩
  else none

/-- `process_single_response` (optillm.py 521-543): a string without
markers passes through unchanged (`Sum.inl`); a string with markers is
split, blank parts are dropped (`if p.strip()`), and the remaining
parts become `{role, content}` entries (`Sum.inr`). -/
def process_single_response (text : String) : String ⊕ List ChatMessage :=
  if has_conversation_tags text then
    Sum.inr (((reSplitTags (pyStrip text)).filter
      (fun part => !(pyStrip part).data.isEmpty)).filterMap partToMessage)
  else Sum.inl text

/-- The non-list rendering path of `proxy` (optillm.py 673-676): if the
conversion produced a non-empty message list, the response becomes the
content of its last entry (`messages[-1]['content']`); otherwise the
response is unchanged. -/
def render_final_single (response : String) : String :=
  match process_single_response response with
  | Sum.inl _ => response
  | Sum.inr msgs =>
    match msgs.getLast? with
    | some msg => msg.content
    | none => response

/-- One element of the list rendering path of `proxy` (optillm.py
670-671): `msg[-1]['content'] if isinstance(msg, list) and msg else
msg`.  The empty-message-list case is unreachable for tagged strings
(`process_single_response_tagged_nonempty` below); Python would leave
the empty list object in place there. -/
def render_processed_elem : String ⊕ List ChatMessage → String
  | Sum.inl t => t
  | Sum.inr msgs =>
    match msgs.getLast? with
    | some msg => msg.content
    | none => ""

/-- The list rendering path of `proxy` (optillm.py 665-672): if no
element had tags, the list is returned untouched
(`tagged_conversation_to_messages` returns the original list and the
`processed_response != response` guard fails); otherwise each element
is replaced by its last entry's content, untagged elements passing
through unchanged. -/
def render_final_list (response : List String) : List String :=
  if (response.map process_single_response).all
      (fun p => match p with | Sum.inl _ => true | Sum.inr _ => false) then
    response
  else (response.map process_single_response).map render_processed_elem

/-- The rendering the claim describes (spec §4.5): the content of the
*last assistant-role* entry of the normalized transcript.  Stated from
the claim's words, for comparison with the code's behaviour. -/
def spec_last_assistant_content (msgs : List ChatMessage) : Option String :=
  ((msgs.filter (fun msg => msg.role == "assistant")).getLast?).map ChatMessage.content

/-! ## Transcript lemmas -/

theorem startsWithChars_iff (pre : List Char) :
    ∀ l, startsWithChars pre l = true ↔ ∃ b, l = pre ++ b := by
  induction pre with
  | nil =>
    intro l
    simp [startsWithChars]
  | cons p ps ih =>
    intro l
    cases l with
    | nil => simp [startsWithChars]
    | cons c rest =>
      simp only [startsWithChars, Bool.and_eq_true, beq_iff_eq, ih rest]
      constructor
      · rintro ⟨rfl, b, rfl⟩
        exact ⟨b, rfl⟩
      · rintro ⟨b, hb⟩
        injection hb with h1 h2
        exact ⟨h1.symm, b, h2⟩

theorem containsSubChars_iff (needle : List Char) :
    ∀ hay, containsSubChars needle hay = true ↔ ∃ a b, hay = a ++ needle ++ b := by
  intro hay
  induction hay with
  | nil =>
    simp only [containsSubChars, startsWithChars_iff]
    constructor
    · rintro ⟨b, hb⟩
      exact ⟨[], b, hb⟩
    · rintro ⟨a, b, hab⟩
      rcases List.append_eq_nil.mp (List.append_eq_nil.mp hab.symm).1 with ⟨_, h2⟩
      exact ⟨b, by simp_all⟩
  | cons c rest ih =>
    simp only [containsSubChars, Bool.or_eq_true, startsWithChars_iff, ih]
    constructor
    · rintro (⟨b, hb⟩ | ⟨a, b, hab⟩)
      · exact ⟨[], b, by simp [hb]⟩
      · exact ⟨c :: a, b, by simp [hab]⟩
    · rintro ⟨a, b, hab⟩
      cases a with
      | nil => exact Or.inl ⟨b, by simpa using hab⟩
      | cons a0 a2 =>
        right
        injection hab with h1 h2
        exact ⟨a2, b, h2⟩

/-- `dropWhile` cannot eat into an occurrence whose first character the
predicate rejects. -/
theorem dropWhile_keeps_occurrence (p : Char → Bool) (n : Char) (ns b : List Char)
    (hn : p n = false) :
    ∀ a : List Char, ∃ a', (a ++ (n :: ns) ++ b).dropWhile p = a' ++ (n :: ns) ++ b := by
  intro a
  induction a with
  | nil =>
    refine ⟨[], ?_⟩
    simp [List.dropWhile_cons, hn]
  | cons c a2 ih =>
    by_cases hc : p c = true
    · obtain ⟨a', ha'⟩ := ih
      refine ⟨a', ?_⟩
      simpa [List.dropWhile_cons, hc] using ha'
    · refine ⟨c :: a2, ?_⟩
      simp only [Bool.not_eq_true] at hc
      simp [List.dropWhile_cons, hc]

/-- An occurrence of a string whose first and last characters are not
whitespace survives `str.strip()`. -/
theorem pyStripC_keeps_occurrence (m : List Char)
    (hhead : ∃ n ns, m = n :: ns ∧ isPySpace n = false)
    (hlast : ∃ n ns, m.reverse = n :: ns ∧ isPySpace n = false)
    (a b : List Char) :
    ∃ a2 b2, pyStripC (a ++ m ++ b) = a2 ++ m ++ b2 := by
  obtain ⟨n, ns, hm, hn⟩ := hhead
  obtain ⟨rn, rns, hrm, hrn⟩ := hlast
  subst hm
  obtain ⟨a', ha'⟩ := dropWhile_keeps_occurrence isPySpace n ns b hn a
  have hrev : ((a ++ (n :: ns) ++ b).dropWhile isPySpace).reverse =
      b.reverse ++ (n :: ns).reverse ++ a'.reverse := by
    rw [ha']
    simp [List.reverse_append, List.append_assoc]
  rw [hrm] at hrev
  obtain ⟨b', hb'⟩ := dropWhile_keeps_occurrence isPySpace rn rns a'.reverse hrn b.reverse
  refine ⟨a', b'.reverse, ?_⟩
  simp only [pyStripC, hrev, hb']
  rw [← hrm]
  simp [List.reverse_append, List.append_assoc]

theorem markerAt_some (l m : List Char) (h : markerAt l = some m) :
    m = userMarker ∨ m = assistantMarker := by
  unfold markerAt at h
  split at h
  · exact Or.inl (Option.some.inj h).symm
  · split at h
    · exact Or.inr (Option.some.inj h).symm
    · exact absurd h (by simp)

theorem startsWithChars_append_self (x : List Char) :
    ∀ y, startsWithChars x (x ++ y) = true := by
  induction x with
  | nil => intro y; rfl
  | cons c cs ih => intro y; simp [startsWithChars, ih]

theorem markerAt_user (b : List Char) :
    markerAt ('U' :: 's' :: 'e' :: 'r' :: ':' :: b) = some userMarker := by
  have h : startsWithChars userMarker ('U' :: 's' :: 'e' :: 'r' :: ':' :: b) = true := by
    simpa [userMarker] using startsWithChars_append_self userMarker b
  simp [markerAt, h]

theorem markerAt_assistant (b : List Char) :
    markerAt ('A' :: 's' :: 's' :: 'i' :: 's' :: 't' :: 'a' :: 'n' :: 't' :: ':' :: b) =
      some assistantMarker := by
  have h1 : startsWithChars userMarker
      ('A' :: 's' :: 's' :: 'i' :: 's' :: 't' :: 'a' :: 'n' :: 't' :: ':' :: b) = false := by
    have hc : (('U' : Char) == 'A') = false := by decide
    simp [userMarker, startsWithChars, hc]
  have h2 : startsWithChars assistantMarker
      ('A' :: 's' :: 's' :: 'i' :: 's' :: 't' :: 'a' :: 'n' :: 't' :: ':' :: b) = true := by
    simpa [assistantMarker] using startsWithChars_append_self assistantMarker b
  simp [markerAt, h1, h2]

theorem reSplitTagsGo_cons_marker (cur : List Char) (c : Char) (rest m : List Char)
    (h : markerAt (c :: rest) = some m) :
    reSplitTagsGo cur (c :: rest) =
      String.mk cur.reverse :: String.mk m :: reSplitTagsGo [c] rest := by
  simp [reSplitTagsGo, h]

theorem reSplitTagsGo_cons_nomarker (cur : List Char) (c : Char) (rest : List Char)
    (h : markerAt (c :: rest) = none) :
    reSplitTagsGo cur (c :: rest) = reSplitTagsGo (c :: cur) rest := by
  simp [reSplitTagsGo, h]

/-- The regex split of a string containing a marker always contains the
marker itself (the captured group element). -/
theorem reSplitTagsGo_marker_mem :
    ∀ (a cur b m : List Char), m = userMarker ∨ m = assistantMarker →
      ∃ x, x ∈ reSplitTagsGo cur (a ++ m ++ b) ∧
        (x = String.mk userMarker ∨ x = String.mk assistantMarker) := by
  intro a
  induction a with
  | nil =>
    intro cur b m hm
    rcases hm with rfl | rfl
    · have hform : ([] : List Char) ++ userMarker ++ b =
          'U' :: 's' :: 'e' :: 'r' :: ':' :: b := rfl
      rw [hform, reSplitTagsGo_cons_marker cur 'U' _ userMarker (markerAt_user b)]
      exact ⟨String.mk userMarker, by simp, Or.inl rfl⟩
    · have hform : ([] : List Char) ++ assistantMarker ++ b =
          'A' :: 's' :: 's' :: 'i' :: 's' :: 't' :: 'a' :: 'n' :: 't' :: ':' :: b := rfl
      rw [hform, reSplitTagsGo_cons_marker cur 'A' _ assistantMarker (markerAt_assistant b)]
      exact ⟨String.mk assistantMarker, by simp, Or.inr rfl⟩
  | cons c a2 ih =>
    intro cur b m hm
    have hform : (c :: a2) ++ m ++ b = c :: (a2 ++ m ++ b) := by simp
    rw [hform]
    cases hmark : markerAt (c :: (a2 ++ m ++ b)) with
    | some m' =>
      rw [reSplitTagsGo_cons_marker cur c _ m' hmark]
      refine ⟨String.mk m', by simp, ?_⟩
      rcases markerAt_some _ m' hmark with rfl | rfl
      · exact Or.inl rfl
      · exact Or.inr rfl
    | none =>
      rw [reSplitTagsGo_cons_nomarker cur c _ hmark]
      exact ih (c :: cur) b m hm

/-- A string with conversation tags always yields a non-empty message
list from `process_single_response`. -/
theorem process_single_response_tagged_nonempty (text : String)
    (h : has_conversation_tags text = true) :
    ∃ msgs, process_single_response text = Sum.inr msgs ∧ msgs ≠ [] := by
  have hocc : ∃ a b m, (m = userMarker ∨ m = assistantMarker) ∧
      text.data = a ++ m ++ b := by
    have h' : containsSubChars userMarker text.data = true ∨
        containsSubChars assistantMarker text.data = true := by
      simpa [has_conversation_tags] using h
    rcases h' with hu | ha
    · obtain ⟨a, b, hab⟩ := (containsSubChars_iff userMarker text.data).mp hu
      exact ⟨a, b, userMarker, Or.inl rfl, hab⟩
    · obtain ⟨a, b, hab⟩ := (containsSubChars_iff assistantMarker text.data).mp ha
      exact ⟨a, b, assistantMarker, Or.inr rfl, hab⟩
  obtain ⟨a, b, m, hm, hab⟩ := hocc
  have hstrip : ∃ a2 b2, pyStripC text.data = a2 ++ m ++ b2 := by
    rw [hab]
    refine pyStripC_keeps_occurrence m ?_ ?_ a b
    · rcases hm with rfl | rfl
      · exact ⟨'U', _, rfl, by decide⟩
      · exact ⟨'A', _, rfl, by decide⟩
    · rcases hm with rfl | rfl
      · exact ⟨':', ['r', 'e', 's', 'U'], by decide, by decide⟩
      · exact ⟨':', ['t', 'n', 'a', 't', 's', 'i', 's', 's', 'A'], by decide, by decide⟩
  obtain ⟨a2, b2, hstrip⟩ := hstrip
  have hsplit : reSplitTags (pyStrip text) = reSplitTagsGo [] (a2 ++ m ++ b2) := by
    simp only [reSplitTags, pyStrip, hstrip]
  obtain ⟨x, hxmem, hxeq⟩ := reSplitTagsGo_marker_mem a2 [] b2 m hm
  rw [← hsplit] at hxmem
  have hxkeep : (fun part => !(pyStrip part).data.isEmpty) x = true := by
    rcases hxeq with rfl | rfl <;> decide
  have hxfilter : x ∈ (reSplitTags (pyStrip text)).filter
      (fun part => !(pyStrip part).data.isEmpty) :=
    List.mem_filter.mpr ⟨hxmem, hxkeep⟩
  have hxmsg : partToMessage x ≠ none := by
    rcases hxeq with rfl | rfl <;> decide
  refine ⟨((reSplitTags (pyStrip text)).filter
      (fun part => !(pyStrip part).data.isEmpty)).filterMap partToMessage, ?_, ?_⟩
  · simp [process_single_response, h]
  · intro hnil
    exact hxmsg (List.filterMap_eq_nil_iff.mp hnil x hxfilter)

theorem process_single_response_inl (s t : String)
    (h : process_single_response s = Sum.inl t) : t = s := by
  unfold process_single_response at h
  split at h
  · exact absurd h (by simp)
  · exact (Sum.inl.inj h).symm

theorem process_single_response_inr_tags (s : String) (msgs : List ChatMessage)
    (h : process_single_response s = Sum.inr msgs) :
    has_conversation_tags s = true := by
  unfold process_single_response at h
  split at h
  · assumption
  · exact absurd h (by simp)

/-- The list rendering path treats each element independently, exactly
as the single-response path does. -/
theorem render_final_list_eq_map (rs : List String) :
    render_final_list rs = rs.map render_final_single := by
  have helem : ∀ s, render_processed_elem (process_single_response s) =
      render_final_single s := by
    intro s
    cases hps : process_single_response s with
    | inl t =>
      have := process_single_response_inl s t hps
      subst this
      simp [render_processed_elem, render_final_single, hps]
    | inr msgs =>
      obtain ⟨msgs', hmsgs', hne⟩ := process_single_response_tagged_nonempty s
        (process_single_response_inr_tags s msgs hps)
      rw [hps] at hmsgs'
      have : msgs = msgs' := Sum.inr.inj hmsgs'
      subst this
      cases hlast : msgs.getLast? with
      | none => exact absurd (List.getLast?_eq_none.mp hlast) hne
      | some lastm => simp [render_processed_elem, render_final_single, hps, hlast]
  unfold render_final_list
  split
  · rename_i hall
    have : ∀ s ∈ rs, render_final_single s = s := by
      intro s hs
      have hps := List.all_eq_true.mp hall (process_single_response s)
        (List.mem_map.mpr ⟨s, hs, rfl⟩)
      cases hpe : process_single_response s with
      | inl t =>
        have := process_single_response_inl s t hpe
        subst this
        simp [render_final_single, hpe]
      | inr msgs => simp [hpe] at hps
    have hmapid : rs.map render_final_single = rs := by
      rw [List.map_congr_left this]
      simp
    exact hmapid.symm
  · rw [List.map_map]
    exact List.map_congr_left (fun s _ => helem s)

/-- C6 (amended): for every string containing a `User:` or `Assistant:`
marker, the string is split on marker boundaries into ordered
`{role, content}` entries and the rendered content is the content of
the **last entry, whatever its role** (not the last assistant-role
entry); a string without markers passes through unchanged, byte for
byte; and on a list result the rule applies independently to each
element.  `"User: hi\nAssistant: hello"` renders as `"hello"` (there
the last entry does have the assistant role). -/
theorem c6_transcript_normalization_amended (s : String) (rs : List String) :
    (has_conversation_tags s = false → render_final_single s = s) ∧
    (has_conversation_tags s = true →
      ∃ msgs lastm, process_single_response s = Sum.inr msgs ∧ msgs ≠ [] ∧
        msgs.getLast? = some lastm ∧ render_final_single s = lastm.content) ∧
    render_final_list rs = rs.map render_final_single ∧
    render_final_single "User: hi\nAssistant: hello" = "hello" := by
  refine ⟨?_, ?_, render_final_list_eq_map rs, by decide⟩
  · intro h
    simp [render_final_single, process_single_response, h]
  · intro h
    obtain ⟨msgs, hmsgs, hne⟩ := process_single_response_tagged_nonempty s h
    cases hlast : msgs.getLast? with
    | none => exact absurd (List.getLast?_eq_none.mp hlast) hne
    | some lastm =>
      exact ⟨msgs, lastm, hmsgs, hne, hlast,
        by simp [render_final_single, hmsgs, hlast]⟩

/-- C6 counterexample: on
`"User: hi\nAssistant: hello\nUser: thanks"` the transcript's last
assistant-role entry has content `"hello"`, but the code renders the
content of the last entry outright — `"thanks"` — so the claimed
last-assistant rule does not hold. -/
theorem c6_counterexample_last_entry_not_last_assistant :
    has_conversation_tags "User: hi\nAssistant: hello\nUser: thanks" = true ∧
    process_single_response "User: hi\nAssistant: hello\nUser: thanks" =
      Sum.inr [⟨"user", ""⟩, ⟨"user", "hi"⟩, ⟨"assistant", ""⟩, ⟨"assistant", "hello"⟩,
        ⟨"user", ""⟩, ⟨"user", "thanks"⟩] ∧
    spec_last_assistant_content [⟨"user", ""⟩, ⟨"user", "hi"⟩, ⟨"assistant", ""⟩,
        ⟨"assistant", "hello"⟩, ⟨"user", ""⟩, ⟨"user", "thanks"⟩] = some "hello" ∧
    render_final_single "User: hi\nAssistant: hello\nUser: thanks" = "thanks" ∧
    ("thanks" : String) ≠ "hello" := by
  refine ⟨by decide, by decide, by decide, by decide, by decide⟩

/-! ## Witnesses -/

instance {ε α : Type} [DecidableEq ε] [DecidableEq α] :
    DecidableEq (Except ε α) := fun x y =>
  match x, y with
  | Except.ok a, Except.ok b =>
    if h : a = b then Decidable.isTrue (by rw [h])
    else Decidable.isFalse (fun hc => h (Except.ok.inj hc))
  | Except.error e, Except.error f =>
    if h : e = f then Decidable.isTrue (by rw [h])
    else Decidable.isFalse (fun hc => h (Except.error.inj hc))
  | Except.ok _, Except.error _ => Decidable.isFalse (fun hc => Except.noConfusion hc)
  | Except.error _, Except.ok _ => Decidable.isFalse (fun hc => Except.noConfusion hc)

theorem c2_and_sequential_pipeline_witness :
    execute_combined_approaches
      ([fun _ q _ => (q ++ "A", 1), fun _ q _ => (q ++ "B", 2)].map pureStrategy)
      "sys" "q0" "mod" = Except.ok ("q0AB", 3) :=
  (c2_and_sequential_pipeline
    [fun _ q _ => (q ++ "A", 1), fun _ q _ => (q ++ "B", 2)]
    "sys" "q0" "mod").1.trans (by decide)

theorem c3_or_parallel_fanout_witness :
    execute_parallel_approaches
      ([fun _ q _ => (q ++ "A", 1), fun _ q _ => (q ++ "B", 2)].map pureStrategy)
      "sys" "q0" "mod" = Except.ok (["q0A", "q0B"], 3) :=
  ((c3_or_parallel_fanout "sys" "q0" "mod").1
    [fun _ q _ => (q ++ "A", 1), fun _ q _ => (q ++ "B", 2)]
    (by simp)).trans (by decide)

theorem c4_repetition_aggregate_witness :
    execute_n_times 3 [pureStrategy (fun _ q _ => (q, 2))] "SINGLE" "sys" "q0" "mod" =
      Except.ok (AggResult.multi ["q0", "q0", "q0"], 6) ∧
    execute_n_times 1 [pureStrategy (fun _ q _ => (q, 2))] "SINGLE" "sys" "q0" "mod" =
      Except.ok (AggResult.single "q0", 2) :=
  ⟨(c4_repetition_aggregate 3 [pureStrategy (fun _ q _ => (q, 2))] "SINGLE"
      "sys" "q0" "mod" (Sum.inl "q0") 2 (by decide) rfl).trans (by decide),
   (c4_repetition_aggregate 1 [pureStrategy (fun _ q _ => (q, 2))] "SINGLE"
      "sys" "q0" "mod" (Sum.inl "q0") 2 (by decide) rfl).trans (by decide)⟩

theorem c5_none_combination_rejected_witness :
    proxy_try_block "AND" ["bon", "none"]
      (fun _ => fun _ _ _ => Except.ok ("r", 1)) 1 "sys" "q" "mod" =
      ProxyOutcome.errorResp
        "none approach cannot be combined with other approaches" 500 :=
  c5_none_combination_rejected "AND" ["bon", "none"] (Or.inl rfl) (by decide)
    (fun _ => fun _ _ _ => Except.ok ("r", 1)) 1 "sys" "q" "mod"

theorem c6_transcript_normalization_amended_witness :
    render_final_single "User: hi\nAssistant: hello" = "hello" ∧
    render_final_single "no tags here" = "no tags here" ∧
    render_final_list ["User: hi\nAssistant: hello", "plain"] = ["hello", "plain"] := by
  have h := c6_transcript_normalization_amended "User: hi\nAssistant: hello"
    ["User: hi\nAssistant: hello", "plain"]
  exact ⟨h.2.2.2, (c6_transcript_normalization_amended "no tags here" []).1 (by decide),
    (h.2.2.1).trans (by decide)⟩

theorem c7_streaming_frames_witness :
    (generate_streaming_response (AggResult.multi ["a", "b"]) "mod").get? 0 =
      some (StreamFrame.data "a" 0 "stop" "mod") ∧
    (generate_streaming_response (AggResult.multi ["a", "b"]) "mod").get? 1 =
      some (StreamFrame.data "b" 1 "stop" "mod") ∧
    (generate_streaming_response (AggResult.multi ["a", "b"]) "mod").get? 2 =
      some StreamFrame.done ∧
    (generate_streaming_response (AggResult.multi ["a", "b"]) "mod").get? 3 = none := by
  have h := c7_streaming_frames ["a", "b"] "s" "mod"
  exact ⟨h.2.1 0 (by decide), h.2.1 1 (by decide), h.2.2.1, h.2.2.2.1 3 (by decide)⟩

theorem c8_bearer_authentication_witness :
    (handle_request "k" "/v1/chat/completions" (some "Bearer wrong")
      (fun _ => HttpReply.mk "resp" 200)).status = 401 ∧
    handle_request "k" "/v1/chat/completions" (some "Bearer k")
      (fun _ => HttpReply.mk "resp" 200) = HttpReply.mk "resp" 200 ∧
    handle_request "k" "/health" (some "bad") (fun _ => health) = health := by
  refine ⟨?_, ?_, ?_⟩
  · exact (c8_bearer_authentication "k" "/v1/chat/completions" (some "Bearer wrong")).1
      (by decide) (by decide) (by decide) _
  · exact (c8_bearer_authentication "k" "/v1/chat/completions" (some "Bearer k")).2.1
      (by decide) _
  · exact (c8_bearer_authentication "k" "/health" (some "bad")).2.2

theorem c10_server_config_mutation_witness :
    (proxy_handle_config (MctsConfig.mk 1 2 3 : MctsConfig Nat)
      (MctsRequestFields.mk (some 7) (some 5) (some 9))
      (fun c => c.mcts_simulations)).2.mcts_depth = 7 ∧
    (proxy_handle_config (MctsConfig.mk 1 2 3 : MctsConfig Nat)
      (MctsRequestFields.mk none (some 5) (some 9))
      (fun c => c.mcts_simulations)).2.mcts_depth = 1 ∧
    (proxy_handle_config (MctsConfig.mk 1 2 3 : MctsConfig Nat)
      (MctsRequestFields.mk (some 7) (some 5) (some 9))
      (fun c => c.mcts_simulations)).1 = 9 := by
  have h := c10_server_config_mutation (MctsConfig.mk 1 2 3 : MctsConfig Nat)
    (MctsRequestFields.mk (some 7) (some 5) (some 9))
    (MctsRequestFields.mk none none none) (fun c => c.mcts_simulations)
  have h' := c10_server_config_mutation (MctsConfig.mk 1 2 3 : MctsConfig Nat)
    (MctsRequestFields.mk none (some 5) (some 9))
    (MctsRequestFields.mk none none none) (fun c => c.mcts_simulations)
  exact ⟨h.1 7 rfl, h'.2.1 rfl, (h.2.2.2.2.1).trans rfl⟩
